import Mathlib

/-! Verification of `script/plot_bdg_visualize.py` (bdg-solver repository).

The script is embedded shallowly over exact rationals (`ℚ` in place of IEEE
floats), with a dense grid modelled as `List (List (Option ℚ))` where `none`
stands for the missing-value marker NaN (the only non-finite value the
pipeline produces).  Numpy's negative-index wrap-around semantics for the
fancy assignment `grid[ys, xs] = vals` is modelled explicitly, with duplicate
indices resolved last-write-wins, in sequence, as numpy's `__setitem__` does.
Python exceptions are modelled as an error type carrying the data the
exception message names.
-/

namespace BdgViz

/-- The three quantity kinds (keys of `KIND_TO_PATTERN` / `KIND_TO_COLUMN`). -/
inductive Kind where
  | density
  | orderParameter
  | magnetization
deriving DecidableEq, Repr

/-- Model of `KIND_TO_COLUMN` from the script. -/
def kind_to_column : Kind → String
  | .density => "density"
  | .orderParameter => "orderParameter"
  | .magnetization => "magnetization"

/-- Model of `KIND_TO_PATTERN` from the script. -/
def kind_to_pattern : Kind → String
  | .density => "bdg_density_*.csv"
  | .orderParameter => "bdg_orderParameter_*.csv"
  | .magnetization => "bdg_magnetization_*.csv"

/-- Iteration order of the `KIND_TO_PATTERN` dict in the script. -/
def allKinds : List Kind := [.density, .orderParameter, .magnetization]

/-- Python exceptions raised by the script, carrying the data their message
names.  `schema` is the `ValueError` of `to_grid` (message lists the columns
seen), `missingColumn` the `ValueError` of the renderers (message names the
absent value column and the file), `keyError` a pandas column lookup failure,
`valueEmpty` numpy's zero-size reduction error from `.max()` on an empty
column, `negDim` numpy's negative-dimension error from `np.full`,
`indexError` an out-of-bounds fancy index, `fileNotFound` the
`FileNotFoundError` of `pick_latest_file`, and `config` the `ValueError`
raised by `main` for `--only3d --only2d`. -/
inductive PyErr where
  | schema (cols : List String)
  | missingColumn (col : String) (file : String)
  | keyError (col : String)
  | valueEmpty
  | negDim
  | indexError
  | fileNotFound (pat : String) (dir : String)
  | config
deriving DecidableEq, Repr

/-- A dense grid: row-major, cell `[y][x]`, `none` = NaN. -/
abbrev Grid := List (List (Option ℚ))

/-- Numpy index resolution on an axis of length `n`: a negative index `i`
counts from the end (`n + i`); out of bounds (`i < -n` or `i ≥ n`) is an
IndexError (`none`). -/
def npIdx? (n : Nat) (i : Int) : Option Nat :=
  if 0 ≤ i then
    if i < (n : Int) then some i.toNat else none
  else
    if 0 ≤ (n : Int) + i then some ((n : Int) + i).toNat else none

/-- One element of the fancy assignment on a single row. -/
def npSetRow (row : List (Option ℚ)) (i : Int) (v : ℚ) : Option (List (Option ℚ)) :=
  (npIdx? row.length i).map fun j => row.set j (some v)

/-- One element of the fancy assignment `grid[y, x] = v`. -/
def npSetGrid (g : Grid) (y x : Int) (v : ℚ) : Option Grid :=
  match npIdx? g.length y with
  | none => none
  | some j => (npSetRow (g.getD j []) x v).map fun rw => g.set j rw

/-- Lines 35–44 of `to_grid`: given the extracted `(x, y, value)` rows,
compute `lx = max(xs)+1`, `ly = max(ys)+1`, allocate `np.full((ly, lx), nan)`
and perform `grid[ys, xs] = vals` element by element.  `.max()` on an empty
column raises (`valueEmpty`), `np.full` with a negative dimension raises
(`negDim`), an index outside `[-n, n)` raises (`indexError`). -/
def rasterize (rows : List (Int × Int × ℚ)) : Except PyErr (Grid × Nat × Nat) :=
  match rows with
  | [] => .error .valueEmpty
  | r :: rs =>
    let lxZ : Int := (rs.map (·.1)).foldl max r.1 + 1
    let lyZ : Int := (rs.map (·.2.1)).foldl max r.2.1 + 1
    if lxZ < 0 ∨ lyZ < 0 then .error .negDim
    else
      let init : Grid := List.replicate lyZ.toNat (List.replicate lxZ.toNat none)
      match (r :: rs).foldlM (fun g row => npSetGrid g row.2.1 row.1 row.2.2) init with
      | some g => .ok (g, lxZ.toNat, lyZ.toNat)
      | none => .error .indexError

/-- A parsed CSV (pandas DataFrame): named columns and aligned rows of
rational values. -/
structure Table where
  cols : List String
  rows : List (List ℚ)
deriving DecidableEq, Repr

/-- Model of `df[c]`: column extraction, a KeyError when the column is absent. -/
def getCol (t : Table) (c : String) : Except PyErr (List ℚ) :=
  match t.cols.findIdx? (· == c) with
  | none => .error (.keyError c)
  | some i => .ok (t.rows.map fun r => r.getD i 0)

/-- Model of `int(q)` / `.to_numpy(dtype=int)`: truncation toward zero. -/
def toInt (q : ℚ) : Int := q.num.tdiv q.den

/-- Model of `to_grid(df, value_col)` (lines 31–44): schema check on `x`/`y`, column
extraction, then rasterization. -/
def to_grid (t : Table) (value_col : String) : Except PyErr (Grid × Nat × Nat) :=
  if "x" ∈ t.cols ∧ "y" ∈ t.cols then do
    let xq ← getCol t "x"
    let yq ← getCol t "y"
    let vals ← getCol t value_col
    rasterize (List.zip (xq.map toInt) (List.zip (yq.map toInt) vals))
  else .error (.schema t.cols)

/-- Model of `grid[np.isfinite(grid)]`: the finite values of a grid in row-major
order. -/
def finiteVals (g : Grid) : List ℚ := g.flatten.filterMap id

/-- Model of `values[np.isfinite(values)]` for a 1-D array. -/
def finiteVals1 (values : List (Option ℚ)) : List ℚ := values.filterMap id

/-- Model of `np.quantile(a, q)` with the default linear interpolation method:
sort, take `pos = q (n-1)`, `i = ⌊pos⌋`, and interpolate between the
`i`-th and `(i+1)`-th order statistics. -/
def npQuantile (l : List ℚ) (q : ℚ) : ℚ :=
  let s := l.mergeSort (· ≤ ·)
  let pos : ℚ := q * ((s.length : ℚ) - 1)
  let i : Nat := (⌊pos⌋).toNat
  let a := s.getD i 0
  let b := s.getD (i + 1) a
  a + (pos - ⌊pos⌋) * (b - a)

/-- Model of `robust_range(values, low_q, high_q)` (lines 47–56).  The script's
default arguments are `low_q = 0.02`, `high_q = 0.98`. -/
def robust_range (values : List (Option ℚ)) (low_q high_q : ℚ) : ℚ × ℚ :=
  let finite := finiteVals1 values
  if finite.isEmpty then (-1, 1)
  else
    let lo := npQuantile finite low_q
    let hi := npQuantile finite high_q
    if lo = hi then
      let eps : ℚ := if lo = 0 then 1 / 10 ^ 12 else |lo| * (1 / 10 ^ 3)
      (lo - eps, hi + eps)
    else (lo, hi)

/-- Model of `nice_step_125(x)` (lines 59–71): round `x` up to a 1–2–5 step.  Over ℚ
every value is finite, and `Int.log 10 x` is `⌊log10 x⌋` for `x > 0`. -/
def nice_step_125 (x : ℚ) : ℚ :=
  if x ≤ 0 then 1
  else
    let e : ℤ := Int.log 10 x
    let exp : ℚ := 10 ^ e
    let f := x / exp
    if f ≤ 1 then 1 * exp
    else if f ≤ 2 then 2 * exp
    else if f ≤ 5 then 5 * exp
    else 10 * exp

/-- Model of `math.isclose(a, b, rel_tol, abs_tol)`. -/
def isclose (a b rtol atol : ℚ) : Bool :=
  |a - b| ≤ max (rtol * max |a| |b|) atol

/-- Lines 84–89 of `choose_zrange`: the upper bound derived from the maximum
finite value — step from `nice_step_125(max_val / 7)`, ceiling to the next
multiple, bump one step when it lands (within tolerance) on `max_val`. -/
def zmax_of (max_val : ℚ) : ℚ :=
  let step := nice_step_125 (max_val / 7)
  let z := step * (⌈max_val / step⌉ : ℤ)
  if isclose z max_val (1 / 10 ^ 12) (1 / 10 ^ 12) then z + step else z

/-- Lines 92–95 of `choose_zrange`: the lower bound — pinned to 0 for
density and magnetization, else the 2nd percentile (robust) or the raw
minimum of the finite values. -/
def zmin_of (kind : Kind) (robust : Bool) (finite : List ℚ) : ℚ :=
  match kind with
  | .density | .magnetization => 0
  | .orderParameter =>
    match finite with
    | [] => 0
    | f :: fs => if robust then npQuantile (f :: fs) (2 / 100) else fs.foldl min f

/-- Model of `choose_zrange(kind, grid, robust)` (lines 74–103).  The script's default
argument is `robust = True`. -/
def choose_zrange (kind : Kind) (grid : Grid) (robust : Bool) : ℚ × ℚ :=
  match finiteVals grid with
  | [] => (0, 1)
  | f :: fs =>
    let max_val := fs.foldl max f
    let zmax := zmax_of max_val
    let zmin := zmin_of kind robust (f :: fs)
    if zmin = zmax then
      let eps : ℚ := if zmax = 0 then 1 / 10 ^ 12 else |zmax| * (1 / 10 ^ 3)
      (zmin - eps, zmax + eps)
    else (zmin, zmax)

/-! Section: specification-side views of the rasterizer -/

/-- The cell `[y][x]` of a grid (`none` when out of range, matching the
missing-value marker of fresh cells). -/
def cellAt (g : Grid) (y x : Nat) : Option ℚ := (g.getD y []).getD x none

/-- The value of the last row in input order with coordinates `(x, y)`,
if any — the value the rasterization-correctness property expects in cell
`[y][x]`. -/
def lastVal (rows : List (Int × Int × ℚ)) (x y : Int) : Option ℚ :=
  (rows.reverse.find? fun r => r.1 == x && r.2.1 == y).map (·.2.2)

/-- The value `max(x)` over the rows (junk `-1` on the empty table, where the script
raises instead). -/
def maxX : List (Int × Int × ℚ) → Int
  | [] => -1
  | r :: rs => (rs.map (·.1)).foldl max r.1

/-- The value `max(y)` over the rows. -/
def maxY : List (Int × Int × ℚ) → Int
  | [] => -1
  | r :: rs => (rs.map (·.2.1)).foldl max r.2.1

/-- The maximum of a list of rationals (junk `0` on `[]`); on `f :: fs` this
is definitionally the `finite.max()` expression of `choose_zrange`. -/
def listMax : List ℚ → ℚ
  | [] => 0
  | f :: fs => fs.foldl max f

/-- The in-bounds effect of one numpy cell assignment. -/
def setCell (g : Grid) (y x : Nat) (v : ℚ) : Grid :=
  g.set y ((g.getD y []).set x (some v))

/-! Section: renderers and driver -/

/-- Filesystem operations the driver performs, in program order. -/
inductive FsOp where
  | mkdirp (p : String)
  | globDir (dir : String) (pat : String)
  | readCsv (p : String)
  | writeHtml (p : String)
deriving DecidableEq, Repr

/-- An abstract filesystem: glob results, modification times, parsed CSV
contents.  The script only observes these three views. -/
structure FS where
  glob : String → String → List String
  mtime : String → Int
  read : String → Table

/-- Model of `pick_latest_file` (lines 24–28): the match with the greatest mtime;
Python's `max` keeps the first of several maxima. -/
def pick_latest_file (fs : FS) (dir : String) (pat : String) : Except PyErr String :=
  match fs.glob dir pat with
  | [] => .error (.fileNotFound pat dir)
  | p :: ps => .ok (ps.foldl (fun b c => if fs.mtime b < fs.mtime c then c else b) p)

/-- Model of `Path(csv_path).stem`: the file name with its last extension removed. -/
def stemOf (s : String) : String :=
  match s.splitOn "." with
  | [] => s
  | [_] => s
  | parts => String.intercalate "." parts.dropLast

/-- Model of `make_out_path` (lines 176–180): strip a leading `bdg_` from the stem and
build `bdg_plot_<dim>_<stem>.html` in the output directory. -/
def make_out_path (out_dir : String) (dim : String) (csv_name : String) : String :=
  let stem := stemOf csv_name
  let stem := if stem.startsWith "bdg_" then stem.drop 4 else stem
  out_dir ++ "/" ++ "bdg_plot_" ++ dim ++ "_" ++ stem ++ ".html"

/-- The data a renderer computes and feeds the charting library: the grid,
its dimensions, and the display range used for both the color scale and the
axis extent. -/
structure RenderData where
  grid : Grid
  lx : Nat
  ly : Nat
  zmin : ℚ
  zmax : ℚ
deriving DecidableEq, Repr

/-- Model of `write_surface_html` (lines 105–143), data part: read the CSV, check the
kind's value column, rasterize, choose the range, write the HTML.  The
returned operation list is the file I/O in program order; the figure itself
is opaque to this model beyond `RenderData`. -/
def write_surface_html (fs : FS) (kind : Kind) (csv_name : String) (out_dir : String)
    (robust : Bool) : Except PyErr (List FsOp × String × RenderData) :=
  let t := fs.read csv_name
  let col := kind_to_column kind
  if col ∈ t.cols then do
    let (g, lx, ly) ← to_grid t col
    let zr := choose_zrange kind g robust
    let out_path := make_out_path out_dir "3d" csv_name
    .ok ([.readCsv csv_name, .writeHtml out_path], out_path, ⟨g, lx, ly, zr.1, zr.2⟩)
  else .error (.missingColumn col csv_name)

/-- Model of `write_heatmap_html` (lines 146–174), data part: identical pipeline with
the `2d` output name. -/
def write_heatmap_html (fs : FS) (kind : Kind) (csv_name : String) (out_dir : String)
    (robust : Bool) : Except PyErr (List FsOp × String × RenderData) :=
  let t := fs.read csv_name
  let col := kind_to_column kind
  if col ∈ t.cols then do
    let (g, lx, ly) ← to_grid t col
    let zr := choose_zrange kind g robust
    let out_path := make_out_path out_dir "2d" csv_name
    .ok ([.readCsv csv_name, .writeHtml out_path], out_path, ⟨g, lx, ly, zr.1, zr.2⟩)
  else .error (.missingColumn col csv_name)

/-- The render loop of `main` (lines 208–215): for each selected file, the
surface render unless `--only2d`, then the heatmap render unless `--only3d`. -/
def run_renders (fs : FS) (out_dir : String) (robust : Bool) (only3d only2d : Bool) :
    List (Kind × String) → List FsOp × Except PyErr Unit
  | [] => ([], .ok ())
  | (kind, csv) :: rest =>
    match (if !only2d then (write_surface_html fs kind csv out_dir robust).map (·.1)
           else .ok []) with
    | .error e => ([], .error e)
    | .ok ops3 =>
      match (if !only3d then (write_heatmap_html fs kind csv out_dir robust).map (·.1)
             else .ok []) with
      | .error e => (ops3, .error e)
      | .ok ops2 =>
        let (opsR, res) := run_renders fs out_dir robust only3d only2d rest
        (ops3 ++ ops2 ++ opsR, res)

/-- Parsed command-line arguments of the script. -/
structure Args where
  dir : String
  out : Option String
  no_robust : Bool
  only3d : Bool
  only2d : Bool
deriving DecidableEq, Repr

/-- Model of `main` (lines 182–217): flag conflict check first, then output-directory
creation, file selection per kind (one glob each), and the render loop.  The
first component is the list of filesystem operations performed, in order;
the conflict error is raised before any of them. -/
def main (fs : FS) (args : Args) : List FsOp × Except PyErr Unit :=
  if args.only3d && args.only2d then ([], .error .config)
  else
    let in_dir := args.dir
    let out_dir := args.out.getD in_dir
    let robust := !args.no_robust
    let globOps := allKinds.map fun k => FsOp.globDir in_dir (kind_to_pattern k)
    match allKinds.mapM
        (fun k => (pick_latest_file fs in_dir (kind_to_pattern k)).map (fun p => (k, p))) with
    | .error e => (.mkdirp out_dir :: globOps, .error e)
    | .ok chosen =>
      let (renderOps, res) := run_renders fs out_dir robust args.only3d args.only2d chosen
      (.mkdirp out_dir :: globOps ++ renderOps, res)

/-! Section: fold and order helper lemmas -/

theorem le_foldl_max {α : Type} [LinearOrder α] (l : List α) (a : α) :
    a ≤ l.foldl max a := by
  induction l generalizing a with
  | nil => exact le_refl a
  | cons b t ih => exact le_trans (le_max_left a b) (ih (max a b))

theorem mem_le_foldl_max {α : Type} [LinearOrder α] {l : List α} {x : α} (a : α)
    (hx : x ∈ l) : x ≤ l.foldl max a := by
  induction l generalizing a with
  | nil => cases hx
  | cons b t ih =>
    rcases List.mem_cons.mp hx with rfl | hx'
    · exact le_trans (le_max_right a x) (le_foldl_max t (max a x))
    · exact ih (max a b) hx'

theorem foldl_min_le {α : Type} [LinearOrder α] (l : List α) (a : α) :
    l.foldl min a ≤ a := by
  induction l generalizing a with
  | nil => exact le_refl a
  | cons b t ih => exact le_trans (ih (min a b)) (min_le_left a b)

theorem nice_step_125_pos (x : ℚ) : 0 < nice_step_125 x := by
  rw [nice_step_125]
  split
  · norm_num
  · have hexp : (0:ℚ) < 10 ^ Int.log 10 x := zpow_pos (by norm_num) _
    dsimp only
    split
    · linarith
    · split
      · linarith
      · split
        · linarith
        · linarith

theorem isclose_self (a rtol atol : ℚ) (h : 0 ≤ atol) :
    isclose a a rtol atol = true := by
  rw [isclose]
  apply decide_eq_true
  simpa using le_trans h (le_max_right _ atol)

theorem le_step_mul_ceil {s : ℚ} (x : ℚ) (hs : 0 < s) : x ≤ s * (⌈x / s⌉ : ℤ) := by
  have h := Int.le_ceil (x / s)
  have h2 : s * (x / s) ≤ s * (⌈x / s⌉ : ℤ) := by
    exact mul_le_mul_of_nonneg_left h hs.le
  rwa [mul_div_cancel₀ x hs.ne'] at h2

/-- The bump rule makes the pre-guard upper bound strictly exceed the data
maximum. -/
theorem zmax_of_gt (max_val : ℚ) : max_val < zmax_of max_val := by
  rw [zmax_of]
  have hs : 0 < nice_step_125 (max_val / 7) := nice_step_125_pos _
  have hle : max_val ≤ nice_step_125 (max_val / 7) * (⌈max_val / nice_step_125 (max_val / 7)⌉ : ℤ) :=
    le_step_mul_ceil max_val hs
  split
  · linarith
  · rename_i hnc
    rcases lt_or_eq_of_le hle with h | h
    · exact h
    · exact absurd (h ▸ isclose_self max_val _ _ (by norm_num)) hnc

/-- The epsilon of the degenerate-range guard is positive. -/
theorem guard_eps_pos (z : ℚ) :
    0 < (if z = 0 then (1:ℚ) / 10 ^ 12 else |z| * (1 / 10 ^ 3)) := by
  split
  · norm_num
  · rename_i h
    have : 0 < |z| := abs_pos.mpr h
    positivity

/-! Section: quantile bounds -/

theorem interp_le_max (s : List ℚ) (M : ℚ) (hmem : ∀ x ∈ s, x ≤ M) (i : Nat)
    (hi : i < s.length) (g : ℚ) (hg0 : 0 ≤ g) (hg1 : g < 1) :
    s.getD i 0 + g * (s.getD (i + 1) (s.getD i 0) - s.getD i 0) ≤ M := by
  have ha : s.getD i 0 ∈ s := by
    rw [List.getD_eq_getElem _ _ hi]; exact List.getElem_mem _
  have haM := hmem _ ha
  by_cases hb : i + 1 < s.length
  · have hbmem : s.getD (i + 1) (s.getD i 0) ∈ s := by
      rw [List.getD_eq_getElem _ _ hb]; exact List.getElem_mem _
    have hbM := hmem _ hbmem
    nlinarith [mul_nonneg (by linarith : (0:ℚ) ≤ 1 - g) (by linarith : (0:ℚ) ≤ M - s.getD i 0),
      mul_nonneg hg0 (by linarith : (0:ℚ) ≤ M - s.getD (i + 1) (s.getD i 0))]
  · rw [List.getD_eq_default _ _ (not_lt.mp hb)]
    nlinarith

theorem mem_le_listMax {l : List ℚ} {x : ℚ} (hx : x ∈ l) : x ≤ listMax l := by
  cases l with
  | nil => cases hx
  | cons f fs =>
    rw [listMax]
    rcases List.mem_cons.mp hx with rfl | h
    · exact le_foldl_max fs x
    · exact mem_le_foldl_max f h

/-- Any quantile of a non-empty list lies below its maximum. -/
theorem npQuantile_le_max (l : List ℚ) (q : ℚ) (hne : l ≠ []) (h0 : 0 ≤ q) (h1 : q ≤ 1) :
    npQuantile l q ≤ listMax l := by
  rw [npQuantile]
  have hlen : (l.mergeSort (· ≤ ·)).length = l.length := List.length_mergeSort l
  have hn : 0 < l.length := List.length_pos.mpr hne
  have hmem : ∀ x ∈ l.mergeSort (· ≤ ·), x ≤ listMax l := fun x hx =>
    mem_le_listMax (List.mem_mergeSort.mp hx)
  set s := l.mergeSort (· ≤ ·) with hs
  set pos := q * ((s.length : ℚ) - 1) with hpos
  have hn1 : (1:ℚ) ≤ (s.length : ℚ) := by
    rw [hlen]; exact_mod_cast hn
  have hpos0 : 0 ≤ pos := mul_nonneg h0 (by linarith)
  have hposle : pos ≤ (s.length : ℚ) - 1 := by
    rw [hpos]; nlinarith
  have hfl0 : 0 ≤ ⌊pos⌋ := Int.floor_nonneg.mpr hpos0
  have hi_le : ((⌊pos⌋.toNat : ℚ)) ≤ pos := by
    have h := Int.floor_le pos
    have h2 : ((⌊pos⌋.toNat : ℤ) : ℚ) = ((⌊pos⌋ : ℤ) : ℚ) :=
      congrArg (fun z : ℤ => (z : ℚ)) (Int.toNat_of_nonneg hfl0)
    push_cast at h2
    rw [h2]
    exact h
  have hi_lt : ⌊pos⌋.toNat < s.length := by
    have hq : ((⌊pos⌋.toNat : ℚ)) < (s.length : ℚ) := by linarith
    exact_mod_cast hq
  have hg0 : (0:ℚ) ≤ pos - ⌊pos⌋ := sub_nonneg.mpr (Int.floor_le pos)
  have hg1 : pos - (⌊pos⌋ : ℚ) < 1 := by
    have := Int.lt_floor_add_one pos
    linarith
  exact interp_le_max s (listMax l) hmem _ hi_lt _ hg0 hg1

/-! Section: structure of `choose_zrange` -/

theorem zmin_of_orderParameter_le (r : Bool) (f : ℚ) (fs : List ℚ) :
    zmin_of .orderParameter r (f :: fs) ≤ fs.foldl max f := by
  simp only [zmin_of]
  split
  · have h := npQuantile_le_max (f :: fs) (2 / 100) (by simp) (by norm_num) (by norm_num)
    simpa [listMax] using h
  · exact le_trans (foldl_min_le fs f) (le_foldl_max fs f)

theorem zmin_of_pinned (k : Kind) (hk : k = .density ∨ k = .magnetization) (r : Bool)
    (l : List ℚ) : zmin_of k r l = 0 := by
  rcases hk with rfl | rfl <;> rfl

/-- The upper bound returned by `choose_zrange` strictly exceeds the maximum
finite value (guard included, since the guard only raises it further). -/
theorem choose_zrange_snd_gt (k : Kind) (g : Grid) (r : Bool) (f : ℚ) (fs : List ℚ)
    (hfv : finiteVals g = f :: fs) :
    fs.foldl max f < (choose_zrange k g r).2 := by
  rw [choose_zrange, hfv]
  dsimp only
  have h1 := zmax_of_gt (fs.foldl max f)
  have h2 := guard_eps_pos (zmax_of (fs.foldl max f))
  split
  · dsimp only
    linarith
  · exact h1

/-- For `orderParameter` the degenerate-range guard never fires: the lower
bound is at most the data maximum, which the upper bound strictly exceeds. -/
theorem choose_zrange_orderParameter_eq (g : Grid) (r : Bool) (f : ℚ) (fs : List ℚ)
    (hfv : finiteVals g = f :: fs) :
    choose_zrange .orderParameter g r =
      (zmin_of .orderParameter r (f :: fs), zmax_of (fs.foldl max f)) := by
  rw [choose_zrange, hfv]
  dsimp only
  have h1 := zmax_of_gt (fs.foldl max f)
  have h2 := zmin_of_orderParameter_le r f fs
  rw [if_neg (by intro h; rw [h] at h2; linarith)]

/-- For the pinned kinds the pair is `(0, zmax)` whenever `zmax ≠ 0`. -/
theorem choose_zrange_pinned_eq (k : Kind) (hk : k = .density ∨ k = .magnetization)
    (g : Grid) (r : Bool) (f : ℚ) (fs : List ℚ) (hfv : finiteVals g = f :: fs)
    (hne0 : zmax_of (fs.foldl max f) ≠ 0) :
    choose_zrange k g r = (0, zmax_of (fs.foldl max f)) := by
  rw [choose_zrange, hfv]
  dsimp only
  rw [zmin_of_pinned k hk r]
  rw [if_neg (fun hh => hne0 hh.symm)]

/-- For the pinned kinds the whole computation ignores the robust flag. -/
theorem choose_zrange_pinned_robust_irrel (k : Kind)
    (hk : k = .density ∨ k = .magnetization) (g : Grid) (r₁ r₂ : Bool) :
    choose_zrange k g r₁ = choose_zrange k g r₂ := by
  cases hfv : finiteVals g with
  | nil => simp only [choose_zrange, hfv]
  | cons f fs =>
    simp only [choose_zrange, hfv]
    rw [zmin_of_pinned k hk r₁, zmin_of_pinned k hk r₂]

/-- Concrete evaluation: the nice step at a non-positive target is 1. -/
theorem nice_step_125_nonpos {x : ℚ} (hx : x ≤ 0) : nice_step_125 x = 1 := by
  rw [nice_step_125, if_pos hx]

/-- Concrete evaluation: the pre-bump upper bound at data maximum `-1/2` is
`1 · ⌈-1/2⌉ = 0`, and the bump does not fire (`0` is not within `1e-12` of
`-1/2`), so `zmax_of (-1/2) = 0`. -/
theorem zmax_of_neg_half : zmax_of (-(1/2)) = 0 := by
  rw [zmax_of]
  have hstep : nice_step_125 (-(1/2) / 7) = 1 := nice_step_125_nonpos (by norm_num)
  rw [hstep]
  have hceil : (⌈(-(1/2) : ℚ) / 1⌉ : ℤ) = 0 := by
    rw [Int.ceil_eq_iff]; norm_num
  rw [hceil]
  have hic : isclose ((1:ℚ) * ((0:ℤ) : ℚ)) (-(1/2)) (1 / 10 ^ 12) (1 / 10 ^ 12) = false := by
    rw [isclose]; apply decide_eq_false; norm_num [abs]
  rw [hic]
  norm_num

/-- Concrete evaluation: a quantile of a one-element list is its element. -/
theorem npQuantile_single (v q : ℚ) : npQuantile [v] q = v := by
  rw [npQuantile]
  rw [List.mergeSort_singleton]
  norm_num

/-- C3: for every grid with at least one finite value, the `zmax` returned by
`choose_zrange` (any kind, any robust setting) is strictly greater than the
maximum finite value of the grid: the bump-by-one-step rule puts the
displayed maximum strictly above the data maximum. -/
theorem choose_zrange_zmax_gt_data_max (k : Kind) (g : Grid) (r : Bool)
    (h : finiteVals g ≠ []) : listMax (finiteVals g) < (choose_zrange k g r).2 := by
  obtain ⟨f, fs, hfv⟩ : ∃ f fs, finiteVals g = f :: fs := by
    cases hcase : finiteVals g with
    | nil => exact absurd hcase h
    | cons a l => exact ⟨a, l, rfl⟩
  rw [hfv, listMax]
  exact choose_zrange_snd_gt k g r f fs hfv

theorem choose_zrange_zmax_gt_data_max_witness :
    finiteVals [[some 1]] ≠ [] ∧
      listMax (finiteVals [[some 1]]) < (choose_zrange .density [[some 1]] true).2 :=
  ⟨by decide, choose_zrange_zmax_gt_data_max .density [[some 1]] true (by decide)⟩

/-- C2 (counterexample): on the all-negative grid `[[-1/2]]` and kind
density, `zmax` computes to `0`, the degenerate-range guard fires, and the
returned `zmin` is `-1e-12`, not `0`. -/
theorem density_zmin_counterexample :
    (choose_zrange .density [[some (-(1/2))]] true).1 = -(1 / 10 ^ 12) ∧
      (choose_zrange .density [[some (-(1/2))]] true).1 ≠ 0 := by
  have hfv : finiteVals [[some (-(1/2))]] = [-(1/2)] := rfl
  have h : choose_zrange .density [[some (-(1/2))]] true = (-(1/10^12), 1/10^12) := by
    rw [choose_zrange, hfv]
    dsimp only
    rw [show List.foldl max (-(1/2)) ([] : List ℚ) = -(1/2) from rfl, zmax_of_neg_half]
    rw [show zmin_of Kind.density true [-(1/2)] = (0:ℚ) from rfl]
    rw [if_pos rfl]
    norm_num
  rw [h]
  norm_num

/-- C2 (amended): for every grid holding at least one non-negative finite
value (in particular any genuine density or magnetization data) and every
robust setting, `choose_zrange` returns `zmin = 0` exactly, for kind density
and for kind magnetization. -/
theorem density_magnetization_zmin_zero (g : Grid) (r : Bool)
    (h : ∃ v ∈ finiteVals g, 0 ≤ v) :
    (choose_zrange .density g r).1 = 0 ∧ (choose_zrange .magnetization g r).1 = 0 := by
  obtain ⟨v, hv, hv0⟩ := h
  obtain ⟨f, fs, hfv⟩ : ∃ f fs, finiteVals g = f :: fs := by
    cases hcase : finiteVals g with
    | nil => rw [hcase] at hv; cases hv
    | cons a l => exact ⟨a, l, rfl⟩
  have hvM : v ≤ fs.foldl max f := by
    have := mem_le_listMax (hfv ▸ hv)
    rwa [listMax] at this
  have hzmax : 0 < zmax_of (fs.foldl max f) :=
    lt_of_le_of_lt (le_trans hv0 hvM) (zmax_of_gt _)
  constructor
  · rw [choose_zrange_pinned_eq .density (Or.inl rfl) g r f fs hfv (ne_of_gt hzmax)]
  · rw [choose_zrange_pinned_eq .magnetization (Or.inr rfl) g r f fs hfv (ne_of_gt hzmax)]

theorem density_magnetization_zmin_zero_witness :
    (∃ v ∈ finiteVals [[some 1]], 0 ≤ v) ∧
      (choose_zrange .density [[some 1]] true).1 = 0 ∧
      (choose_zrange .magnetization [[some 1]] true).1 = 0 :=
  ⟨⟨1, List.mem_singleton.mpr rfl, zero_le_one⟩,
    density_magnetization_zmin_zero [[some 1]] true
      ⟨1, List.mem_singleton.mpr rfl, zero_le_one⟩⟩

/-- Concrete evaluation: the nice-step rule at target `0.7 / 7 = 0.1` yields
`0.1` (`⌊log10 0.1⌋ = -1`, mantissa `1 ≤ 1`). -/
theorem nice_step_125_at_tenth : nice_step_125 ((7:ℚ) / 10 / 7) = 1 / 10 := by
  rw [nice_step_125, if_neg (by norm_num)]
  have hlog : Int.log 10 ((7:ℚ) / 10 / 7) = -1 := by
    have h : ((7:ℚ) / 10 / 7) = (((10:ℕ) : ℚ)) ^ (-1 : ℤ) := by norm_num
    rw [h, Int.log_zpow (by norm_num)]
  rw [hlog]
  norm_num

/-- Concrete evaluation: `zmax_of 0.7 = 0.8` — the ceiling lands exactly on
`0.7`, so the bump rule adds one step. -/
theorem zmax_of_at_07 : zmax_of ((7:ℚ) / 10) = 8 / 10 := by
  rw [zmax_of, nice_step_125_at_tenth]
  have hceil : (⌈((7:ℚ) / 10) / (1 / 10)⌉ : ℤ) = 7 := by
    rw [Int.ceil_eq_iff]; norm_num
  rw [hceil]
  have hic : isclose ((1:ℚ) / 10 * ((7:ℤ) : ℚ)) ((7:ℚ) / 10) (1 / 10 ^ 12) (1 / 10 ^ 12)
      = true := by
    rw [isclose]; apply decide_eq_true
    norm_num
  rw [hic]
  norm_num

/-- C4: for any grid whose maximum finite value is `0.7`, the nice-step rule
at the target `0.7 / 7` yields step `0.1`, `choose_zrange` (any kind, any
robust setting) returns `zmax = 0.8`, and `0.8` is the smallest multiple of
`0.1` strictly greater than `0.7`. -/
theorem zmax_at_max_07 :
    nice_step_125 ((7:ℚ) / 10 / 7) = 1 / 10 ∧
    (∀ (k : Kind) (g : Grid) (r : Bool), finiteVals g ≠ [] →
      listMax (finiteVals g) = 7 / 10 → (choose_zrange k g r).2 = 8 / 10) ∧
    (∀ z : ℚ, (∃ m : ℤ, z = (m : ℚ) * (1 / 10)) → 7 / 10 < z → 8 / 10 ≤ z) := by
  refine ⟨nice_step_125_at_tenth, ?_, ?_⟩
  · intro k g r hne hmax
    obtain ⟨f, fs, hfv⟩ : ∃ f fs, finiteVals g = f :: fs := by
      cases hcase : finiteVals g with
      | nil => exact absurd hcase hne
      | cons a l => exact ⟨a, l, rfl⟩
    have hM : fs.foldl max f = 7 / 10 := by
      rw [hfv, listMax] at hmax; exact hmax
    have hzm : zmax_of (fs.foldl max f) = 8 / 10 := by rw [hM, zmax_of_at_07]
    cases k with
    | density =>
      rw [choose_zrange_pinned_eq .density (Or.inl rfl) g r f fs hfv (by rw [hzm]; norm_num)]
      exact hzm
    | magnetization =>
      rw [choose_zrange_pinned_eq .magnetization (Or.inr rfl) g r f fs hfv
        (by rw [hzm]; norm_num)]
      exact hzm
    | orderParameter =>
      rw [choose_zrange_orderParameter_eq g r f fs hfv]
      exact hzm
  · rintro z ⟨m, rfl⟩ hz
    have hm : (7:ℤ) < m := by
      have h7 : (7:ℚ) < m := by linarith
      exact_mod_cast h7
    have hm8 : (8:ℤ) ≤ m := hm
    have hq8 : (8:ℚ) ≤ (m : ℚ) := by exact_mod_cast hm8
    linarith

theorem zmax_at_max_07_witness :
    finiteVals [[some (7/10)]] ≠ [] ∧ listMax (finiteVals [[some (7/10)]]) = 7 / 10 ∧
      (choose_zrange .density [[some (7/10)]] true).2 = 8 / 10 :=
  ⟨by decide, rfl, zmax_at_max_07.2.1 .density [[some (7/10)]] true (by decide) rfl⟩

/-- C5: on a grid with no finite values `choose_zrange` returns exactly
`(0, 1)` for every kind and robust setting, while `robust_range` on an array
with no finite values returns exactly `(-1, 1)`; the two independent fallback
constants differ. -/
theorem fallback_ranges (k : Kind) (r : Bool) (g : Grid) (values : List (Option ℚ))
    (lq hq : ℚ) (hg : finiteVals g = []) (hv : finiteVals1 values = []) :
    choose_zrange k g r = (0, 1) ∧ robust_range values lq hq = (-1, 1) ∧
      choose_zrange k g r ≠ robust_range values lq hq := by
  have h1 : choose_zrange k g r = (0, 1) := by rw [choose_zrange, hg]
  have h2 : robust_range values lq hq = (-1, 1) := by
    rw [robust_range, hv]
    rfl
  refine ⟨h1, h2, ?_⟩
  rw [h1, h2]
  intro hcontr
  have : (0:ℚ) = -1 := congrArg Prod.fst hcontr
  norm_num at this

theorem fallback_ranges_witness :
    finiteVals [[none]] = [] ∧ finiteVals1 [none] = [] ∧
      choose_zrange .density [[none]] true = (0, 1) ∧
      robust_range [none] (2/100) (98/100) = (-1, 1) :=
  ⟨rfl, rfl, (fallback_ranges .density true [[none]] [none] (2/100) (98/100) rfl rfl).1,
    (fallback_ranges .density true [[none]] [none] (2/100) (98/100) rfl rfl).2.1⟩

/-- C9: the robust flag cannot change the returned `zmax` (for any kind, on
any grid with a finite value), and for the pinned kinds density and
magnetization it cannot change the returned pair at all — so `--no-robust`
affects at most the lower bound of kind orderParameter. -/
theorem robust_flag_noninterference (g : Grid) (h : finiteVals g ≠ []) :
    (∀ k : Kind, (choose_zrange k g true).2 = (choose_zrange k g false).2) ∧
    choose_zrange .density g true = choose_zrange .density g false ∧
    choose_zrange .magnetization g true = choose_zrange .magnetization g false := by
  obtain ⟨f, fs, hfv⟩ : ∃ f fs, finiteVals g = f :: fs := by
    cases hcase : finiteVals g with
    | nil => exact absurd hcase h
    | cons a l => exact ⟨a, l, rfl⟩
  refine ⟨?_, ?_, ?_⟩
  · intro k
    cases k with
    | density =>
      rw [choose_zrange_pinned_robust_irrel .density (Or.inl rfl) g true false]
    | magnetization =>
      rw [choose_zrange_pinned_robust_irrel .magnetization (Or.inr rfl) g true false]
    | orderParameter =>
      rw [choose_zrange_orderParameter_eq g true f fs hfv,
        choose_zrange_orderParameter_eq g false f fs hfv]
  · exact choose_zrange_pinned_robust_irrel .density (Or.inl rfl) g true false
  · exact choose_zrange_pinned_robust_irrel .magnetization (Or.inr rfl) g true false

theorem robust_flag_noninterference_witness :
    finiteVals [[some 1]] ≠ [] ∧
      (choose_zrange .orderParameter [[some 1]] true).2 =
        (choose_zrange .orderParameter [[some 1]] false).2 :=
  ⟨by decide, (robust_flag_noninterference [[some 1]] (by decide)).1 .orderParameter⟩

/-- C6: whenever the computed lower and upper bounds coincide — `zmin = zmax`
inside `choose_zrange`, or `lo = hi` inside `robust_range` — the guard
expands them by the epsilon (`1e-12` absolute when the coinciding value is
zero, else 0.1% of its magnitude) and the returned pair is strictly
non-degenerate. -/
theorem degenerate_range_guard :
    (∀ (k : Kind) (g : Grid) (r : Bool) (f : ℚ) (fs : List ℚ),
      finiteVals g = f :: fs →
      zmin_of k r (f :: fs) = zmax_of (fs.foldl max f) →
      choose_zrange k g r =
        (zmax_of (fs.foldl max f) -
            (if zmax_of (fs.foldl max f) = 0 then (1:ℚ) / 10 ^ 12
              else |zmax_of (fs.foldl max f)| * (1 / 10 ^ 3)),
          zmax_of (fs.foldl max f) +
            (if zmax_of (fs.foldl max f) = 0 then (1:ℚ) / 10 ^ 12
              else |zmax_of (fs.foldl max f)| * (1 / 10 ^ 3))) ∧
        (choose_zrange k g r).1 < (choose_zrange k g r).2) ∧
    (∀ (values : List (Option ℚ)) (lq hq : ℚ) (f : ℚ) (fs : List ℚ),
      finiteVals1 values = f :: fs →
      npQuantile (f :: fs) lq = npQuantile (f :: fs) hq →
      robust_range values lq hq =
        (npQuantile (f :: fs) lq -
            (if npQuantile (f :: fs) lq = 0 then (1:ℚ) / 10 ^ 12
              else |npQuantile (f :: fs) lq| * (1 / 10 ^ 3)),
          npQuantile (f :: fs) lq +
            (if npQuantile (f :: fs) lq = 0 then (1:ℚ) / 10 ^ 12
              else |npQuantile (f :: fs) lq| * (1 / 10 ^ 3))) ∧
        (robust_range values lq hq).1 < (robust_range values lq hq).2) := by
  constructor
  · intro k g r f fs hfv hzz
    have heps := guard_eps_pos (zmax_of (fs.foldl max f))
    have heq : choose_zrange k g r =
        (zmax_of (fs.foldl max f) -
            (if zmax_of (fs.foldl max f) = 0 then (1:ℚ) / 10 ^ 12
              else |zmax_of (fs.foldl max f)| * (1 / 10 ^ 3)),
          zmax_of (fs.foldl max f) +
            (if zmax_of (fs.foldl max f) = 0 then (1:ℚ) / 10 ^ 12
              else |zmax_of (fs.foldl max f)| * (1 / 10 ^ 3))) := by
      rw [choose_zrange, hfv]
      dsimp only
      rw [if_pos hzz, hzz]
    refine ⟨heq, ?_⟩
    rw [heq]
    dsimp only
    linarith
  · intro values lq hq f fs hfv hzz
    have heps := guard_eps_pos (npQuantile (f :: fs) lq)
    have heq : robust_range values lq hq =
        (npQuantile (f :: fs) lq -
            (if npQuantile (f :: fs) lq = 0 then (1:ℚ) / 10 ^ 12
              else |npQuantile (f :: fs) lq| * (1 / 10 ^ 3)),
          npQuantile (f :: fs) lq +
            (if npQuantile (f :: fs) lq = 0 then (1:ℚ) / 10 ^ 12
              else |npQuantile (f :: fs) lq| * (1 / 10 ^ 3))) := by
      rw [robust_range, hfv]
      dsimp only
      rw [if_neg (by simp)]
      rw [if_pos hzz, ← hzz]
    refine ⟨heq, ?_⟩
    rw [heq]
    dsimp only
    linarith

theorem degenerate_range_guard_witness :
    zmin_of .density true [-(1/2)] = zmax_of (List.foldl max (-(1/2)) []) ∧
    npQuantile [(5:ℚ)] (2/100) = npQuantile [(5:ℚ)] (98/100) ∧
    (choose_zrange .density [[some (-(1/2))]] true).1 <
      (choose_zrange .density [[some (-(1/2))]] true).2 ∧
    (robust_range [some (5:ℚ)] (2/100) (98/100)).1 <
      (robust_range [some (5:ℚ)] (2/100) (98/100)).2 := by
  have h1 : zmin_of Kind.density true [-(1/2)] = zmax_of (List.foldl max (-(1/2)) []) := by
    rw [show List.foldl max (-(1/2)) ([] : List ℚ) = -(1/2) from rfl, zmax_of_neg_half]
    rfl
  have h2 : npQuantile [(5:ℚ)] (2/100) = npQuantile [(5:ℚ)] (98/100) := by
    rw [npQuantile_single, npQuantile_single]
  exact ⟨h1, h2,
    (degenerate_range_guard.1 .density [[some (-(1/2))]] true (-(1/2)) [] rfl h1).2,
    (degenerate_range_guard.2 [some (5:ℚ)] (2/100) (98/100) 5 [] rfl h2).2⟩

/-- C10: a row with a negative coordinate does not raise: numpy resolves the
index from the opposite edge.  On `[(0,0,1), (1,0,2), (-1,0,5)]` the grid is
2×1, the row `(-1, 0, 5)` silently lands in cell `[0][1]` — the lattice site
`(1, 0)` whose last provided value was `2` — so rasterization correctness
fails without the non-negativity precondition. -/
theorem negative_coordinate_wraps :
    rasterize [(0, 0, 1), (1, 0, 2), (-1, 0, 5)] = .ok ([[some 1, some 5]], 2, 1) ∧
    cellAt [[some 1, some 5]] 0 1 = some 5 ∧
    lastVal [(0, 0, 1), (1, 0, 2), (-1, 0, 5)] 1 0 = some 2 ∧
    cellAt [[some 1, some 5]] 0 1 ≠ lastVal [(0, 0, 1), (1, 0, 2), (-1, 0, 5)] 1 0 := by
  refine ⟨rfl, rfl, rfl, by decide⟩

/-! Section: error-shape lemmas -/

theorem except_bind_error {α β : Type} (e : PyErr) (f : α → Except PyErr β) :
    (Except.error e >>= f) = Except.error e := rfl

theorem except_bind_ok {α β : Type} (a : α) (f : α → Except PyErr β) :
    (Except.ok a >>= f) = f a := rfl

theorem getCol_error_shape {t : Table} {c : String} {e : PyErr}
    (h : getCol t c = .error e) : e = .keyError c := by
  rw [getCol] at h
  cases hidx : t.cols.findIdx? (· == c) with
  | none => rw [hidx] at h; exact (Except.error.inj h).symm
  | some i => rw [hidx] at h; cases h

theorem rasterize_error_shape {rows : List (Int × Int × ℚ)} {e : PyErr}
    (h : rasterize rows = .error e) :
    e = .valueEmpty ∨ e = .negDim ∨ e = .indexError := by
  rw [rasterize.eq_def] at h
  cases rows with
  | nil => exact Or.inl (Except.error.inj h).symm
  | cons r rs =>
    dsimp only at h
    split at h
    · exact Or.inr (Or.inl (Except.error.inj h).symm)
    · split at h
      · cases h
      · exact Or.inr (Or.inr (Except.error.inj h).symm)

theorem to_grid_not_schema {t : Table} {col : String} {cs : List String}
    (h : "x" ∈ t.cols ∧ "y" ∈ t.cols) : to_grid t col ≠ .error (.schema cs) := by
  rw [to_grid, if_pos h]
  intro hc
  cases hx : getCol t "x" with
  | error e =>
    rw [hx, except_bind_error] at hc
    rw [getCol_error_shape hx] at hc
    cases Except.error.inj hc
  | ok xq =>
    rw [hx, except_bind_ok] at hc
    cases hy : getCol t "y" with
    | error e =>
      rw [hy, except_bind_error] at hc
      rw [getCol_error_shape hy] at hc
      cases Except.error.inj hc
    | ok yq =>
      rw [hy, except_bind_ok] at hc
      cases hv : getCol t col with
      | error e =>
        rw [hv, except_bind_error] at hc
        rw [getCol_error_shape hv] at hc
        cases Except.error.inj hc
      | ok vals =>
        rw [hv, except_bind_ok] at hc
        rcases rasterize_error_shape hc with h1 | h1 | h1 <;> cases h1

/-- C7: `to_grid` raises its schema error exactly when the table lacks an
`x` column or lacks a `y` column, and each renderer raises the schema error
naming the kind's value column whenever that column is absent from the
parsed CSV. -/
theorem schema_errors :
    (∀ (t : Table) (col : String),
      (∃ cs, to_grid t col = .error (.schema cs)) ↔
        ("x" ∉ t.cols ∨ "y" ∉ t.cols)) ∧
    (∀ (fs : FS) (kind : Kind) (csv out_dir : String) (r : Bool),
      kind_to_column kind ∉ (fs.read csv).cols →
      write_surface_html fs kind csv out_dir r =
          .error (.missingColumn (kind_to_column kind) csv) ∧
        write_heatmap_html fs kind csv out_dir r =
          .error (.missingColumn (kind_to_column kind) csv)) := by
  constructor
  · intro t col
    constructor
    · rintro ⟨cs, hcs⟩
      by_contra hcols
      push_neg at hcols
      exact to_grid_not_schema hcols hcs
    · intro hcols
      refine ⟨t.cols, ?_⟩
      rw [to_grid, if_neg ?_]
      intro hmem
      rcases hcols with h | h
      · exact h hmem.1
      · exact h hmem.2
  · intro fs kind csv out_dir r hcol
    constructor
    · rw [write_surface_html, if_neg hcol]
    · rw [write_heatmap_html, if_neg hcol]

theorem schema_errors_witness :
    (∃ cs, to_grid ⟨["y", "v"], [[0, 1], [1, 2]]⟩ "v" = .error (.schema cs)) ∧
    write_surface_html
        ⟨fun _ _ => [], fun _ => 0, fun _ => ⟨["x", "y"], []⟩⟩ .density "f.csv" "out" true =
      .error (.missingColumn "density" "f.csv") := by
  have hx : ("x" : String) ∉ (⟨["y", "v"], [[0, 1], [1, 2]]⟩ : Table).cols := by decide
  have hc : kind_to_column .density ∉
      (FS.read ⟨fun _ _ => [], fun _ => 0, fun _ => ⟨["x", "y"], []⟩⟩ "f.csv").cols := by decide
  exact ⟨(schema_errors.1 ⟨["y", "v"], [[0, 1], [1, 2]]⟩ "v").mpr (Or.inl hx),
    (schema_errors.2 ⟨fun _ _ => [], fun _ => 0, fun _ => ⟨["x", "y"], []⟩⟩ .density
      "f.csv" "out" true hc).1⟩

/-- C8: with both `--only3d` and `--only2d` set, the driver raises the
configuration error with an empty operation trace — before any directory
creation, glob, CSV read or HTML write — for every filesystem. -/
theorem conflicting_only_flags (fs : FS) (args : Args) (h3 : args.only3d = true)
    (h2 : args.only2d = true) : main fs args = ([], .error .config) := by
  rw [main]
  rw [h3, h2]
  rfl

theorem conflicting_only_flags_witness :
    main ⟨fun _ _ => [], fun _ => 0, fun _ => ⟨[], []⟩⟩ ⟨"in", none, false, true, true⟩ =
      ([], .error .config) :=
  conflicting_only_flags ⟨fun _ _ => [], fun _ => 0, fun _ => ⟨[], []⟩⟩
    ⟨"in", none, false, true, true⟩ rfl rfl

/-! Section: rasterizer correctness infrastructure -/

theorem npIdx?_nonneg {n : Nat} {i : Int} (h0 : 0 ≤ i) (hlt : i < (n : Int)) :
    npIdx? n i = some i.toNat := by
  rw [npIdx?, if_pos h0, if_pos hlt]

theorem getD_mem_of_lt {g : Grid} {y : Nat} (h : y < g.length) : g.getD y [] ∈ g := by
  rw [List.getD_eq_getElem _ _ h]
  exact List.getElem_mem _

theorem listGetD_set_self {α : Type} (l : List α) {i : Nat} (a d : α) (h : i < l.length) :
    (l.set i a).getD i d = a := by
  rw [List.getD_eq_getElem?_getD, List.getElem?_set_self h, Option.getD_some]

theorem listGetD_set_ne {α : Type} (l : List α) {i j : Nat} (h : i ≠ j) (a d : α) :
    (l.set i a).getD j d = l.getD j d := by
  rw [List.getD_eq_getElem?_getD, List.getElem?_set_ne h, ← List.getD_eq_getElem?_getD]

theorem npSetGrid_inBounds (g : Grid) (lx : Nat)
    (hrow : ∀ row ∈ g, row.length = lx) {y x : Int} (hy0 : 0 ≤ y)
    (hy : y < (g.length : Int)) (hx0 : 0 ≤ x) (hx : x < (lx : Int)) (v : ℚ) :
    npSetGrid g y x v = some (setCell g y.toNat x.toNat v) := by
  rw [npSetGrid.eq_def, npIdx?_nonneg hy0 hy]
  dsimp only
  have hyN : y.toNat < g.length := by omega
  have hrl : (g.getD y.toNat []).length = lx := hrow _ (getD_mem_of_lt hyN)
  rw [npSetRow, hrl, npIdx?_nonneg hx0 hx]
  rfl

theorem setCell_length (g : Grid) (y x : Nat) (v : ℚ) :
    (setCell g y x v).length = g.length := by
  rw [setCell, List.length_set]

theorem setCell_row_lengths {g : Grid} {lx : Nat} (hrow : ∀ row ∈ g, row.length = lx)
    {y : Nat} (hy : y < g.length) (x : Nat) (v : ℚ) :
    ∀ row ∈ setCell g y x v, row.length = lx := by
  intro row hr
  rcases List.mem_or_eq_of_mem_set hr with h | rfl
  · exact hrow _ h
  · rw [List.length_set]
    exact hrow _ (getD_mem_of_lt hy)

theorem cellAt_setCell (g : Grid) {lx : Nat} (hrow : ∀ row ∈ g, row.length = lx)
    {y x : Nat} (hy : y < g.length) (hx : x < lx) (v : ℚ) (y' x' : Nat) :
    cellAt (setCell g y x v) y' x' =
      if y = y' ∧ x = x' then some v else cellAt g y' x' := by
  rw [cellAt, setCell, cellAt]
  by_cases hyy : y = y'
  · subst hyy
    rw [listGetD_set_self g _ [] hy]
    by_cases hxx : x = x'
    · subst hxx
      rw [if_pos ⟨rfl, rfl⟩]
      have hxl : x < (g.getD y []).length := by
        rw [hrow _ (getD_mem_of_lt hy)]; exact hx
      rw [listGetD_set_self _ _ none hxl]
    · rw [if_neg (fun hcon => hxx hcon.2)]
      rw [listGetD_set_ne _ hxx _ none]
  · rw [if_neg (fun hcon => hyy hcon.1)]
    rw [listGetD_set_ne g hyy _ []]

theorem lastVal_nil (x y : Int) : lastVal [] x y = none := rfl

theorem lastVal_cons (p : Int × Int × ℚ) (rest : List (Int × Int × ℚ)) (x y : Int) :
    lastVal (p :: rest) x y =
      (lastVal rest x y).or (if p.1 = x ∧ p.2.1 = y then some p.2.2 else none) := by
  rw [lastVal, lastVal, List.reverse_cons, List.find?_append]
  cases hf : rest.reverse.find? (fun r => r.1 == x && r.2.1 == y) with
  | some w => rfl
  | none =>
    rw [Option.none_or, Option.map, Option.none_or]
    show (List.find? (fun r => r.1 == x && r.2.1 == y) [p]).map (·.2.2) = _
    rw [List.find?]
    by_cases hp : p.1 = x ∧ p.2.1 = y
    · rw [if_pos hp]
      have hb : (p.1 == x && p.2.1 == y) = true := by
        rw [Bool.and_eq_true, beq_iff_eq, beq_iff_eq]; exact hp
      rw [hb]
      rfl
    · rw [if_neg hp]
      have hb : (p.1 == x && p.2.1 == y) = false := by
        rw [Bool.eq_false_iff]
        intro hcon
        rw [Bool.and_eq_true, beq_iff_eq, beq_iff_eq] at hcon
        exact hp hcon
      rw [hb]
      rfl

theorem getD_replicate' {α : Type} (n i : Nat) (a d : α) :
    (List.replicate n a).getD i d = if i < n then a else d := by
  rw [List.getD_eq_getElem?_getD, List.getElem?_replicate]
  by_cases h : i < n
  · rw [if_pos h, if_pos h, Option.getD_some]
  · rw [if_neg h, if_neg h]
    rfl

theorem cellAt_replicate {ly lx : Nat} (y x : Nat) (hy : y < ly) :
    cellAt (List.replicate ly (List.replicate lx (none : Option ℚ))) y x = none := by
  rw [cellAt, getD_replicate', if_pos hy, getD_replicate']
  by_cases hx : x < lx
  · rw [if_pos hx]
  · rw [if_neg hx]

/-- Invariant of the element-by-element fancy assignment: when every row's
coordinates are in `[0, lx) × [0, ly)`, the fold succeeds, preserves the grid
shape, and each cell ends up holding the value of the last row naming it,
falling back to the initial grid's cell. -/
theorem foldlM_rasterize (ly lx : Nat) (rows : List (Int × Int × ℚ)) :
    ∀ g : Grid, g.length = ly → (∀ row ∈ g, row.length = lx) →
    (∀ p ∈ rows, 0 ≤ p.1 ∧ p.1 < (lx : Int) ∧ 0 ≤ p.2.1 ∧ p.2.1 < (ly : Int)) →
    ∃ g', rows.foldlM (fun g row => npSetGrid g row.2.1 row.1 row.2.2) g = some g' ∧
      g'.length = ly ∧ (∀ row ∈ g', row.length = lx) ∧
      ∀ y' x', y' < ly → x' < lx →
        cellAt g' y' x' = (lastVal rows (x' : Int) (y' : Int)).or (cellAt g y' x') := by
  induction rows with
  | nil =>
    intro g hlen hrow _
    refine ⟨g, rfl, hlen, hrow, ?_⟩
    intro y' x' _ _
    rw [lastVal_nil, Option.none_or]
  | cons p rest ih =>
    intro g hlen hrow hbound
    have hp := hbound p (List.mem_cons_self p rest)
    have hset : npSetGrid g p.2.1 p.1 p.2.2 = some (setCell g p.2.1.toNat p.1.toNat p.2.2) :=
      npSetGrid_inBounds g lx hrow hp.2.2.1 (by rw [hlen]; exact hp.2.2.2) hp.1 hp.2.1 p.2.2
    have hyN : p.2.1.toNat < ly := by
      have := hp.2.2.2
      omega
    have hxN : p.1.toNat < lx := by
      have := hp.2.1
      omega
    have hyg : p.2.1.toNat < g.length := by rw [hlen]; exact hyN
    obtain ⟨g', hfold, hl, hr, hcell⟩ :=
      ih (setCell g p.2.1.toNat p.1.toNat p.2.2)
        (by rw [setCell_length]; exact hlen)
        (setCell_row_lengths hrow hyg p.1.toNat p.2.2)
        (fun q hq => hbound q (List.mem_cons_of_mem p hq))
    refine ⟨g', ?_, hl, hr, ?_⟩
    · rw [List.foldlM_cons, hset]
      exact hfold
    · intro y' x' hy' hx'
      rw [hcell y' x' hy' hx']
      rw [cellAt_setCell g hrow hyg hxN p.2.2 y' x']
      rw [lastVal_cons]
      have hcond : (p.2.1.toNat = y' ∧ p.1.toNat = x') ↔ (p.1 = (x' : Int) ∧ p.2.1 = (y' : Int)) := by
        constructor
        · rintro ⟨hyy, hxx⟩
          constructor
          · rw [← hxx, Int.toNat_of_nonneg hp.1]
          · rw [← hyy, Int.toNat_of_nonneg hp.2.2.1]
        · rintro ⟨hxx, hyy⟩
          constructor
          · rw [hyy]; exact Int.toNat_natCast y'
          · rw [hxx]; exact Int.toNat_natCast x'
      cases hfind : lastVal rest (x' : Int) (y' : Int) with
      | some w => rfl
      | none =>
        rw [Option.none_or, Option.none_or]
        by_cases hmatch : p.2.1.toNat = y' ∧ p.1.toNat = x'
        · rw [if_pos hmatch, if_pos (hcond.mp hmatch)]
          rfl
        · rw [if_neg hmatch, if_neg (fun hcon => hmatch (hcond.mpr hcon))]
          rw [Option.none_or]

/-- C1: rasterization correctness — for every non-empty list of `(x, y,
value)` rows with non-negative coordinates, the rasterizer succeeds with a
grid of shape `(max y + 1, max x + 1)` in which every cell named by some row
holds the value of the last row in input order with that coordinate, and
every other cell holds the missing-value marker (`lastVal` is `none`
there). -/
theorem rasterization_correct (rows : List (Int × Int × ℚ)) (hne : rows ≠ [])
    (hnn : ∀ p ∈ rows, 0 ≤ p.1 ∧ 0 ≤ p.2.1) :
    ∃ g, rasterize rows = .ok (g, (maxX rows + 1).toNat, (maxY rows + 1).toNat) ∧
      g.length = (maxY rows + 1).toNat ∧
      (∀ row ∈ g, row.length = (maxX rows + 1).toNat) ∧
      ∀ y x, y < (maxY rows + 1).toNat → x < (maxX rows + 1).toNat →
        cellAt g y x = lastVal rows (x : Int) (y : Int) := by
  obtain ⟨r, rs, rfl⟩ : ∃ r rs, rows = r :: rs := by
    cases rows with
    | nil => exact absurd rfl hne
    | cons a l => exact ⟨a, l, rfl⟩
  rw [show maxX (r :: rs) = (rs.map (·.1)).foldl max r.1 from rfl]
  rw [show maxY (r :: rs) = (rs.map (·.2.1)).foldl max r.2.1 from rfl]
  rw [rasterize.eq_def]
  dsimp only
  set MX := (rs.map (·.1)).foldl max r.1 with hMX
  set MY := (rs.map (·.2.1)).foldl max r.2.1 with hMY
  have hr0 := hnn r (List.mem_cons_self r rs)
  have hmX0 : (0:Int) ≤ MX := le_trans hr0.1 (le_foldl_max _ _)
  have hmY0 : (0:Int) ≤ MY := le_trans hr0.2 (le_foldl_max _ _)
  have hbX : ∀ p ∈ r :: rs, p.1 ≤ MX := by
    intro p hp
    rcases List.mem_cons.mp hp with rfl | hp'
    · exact le_foldl_max _ _
    · exact mem_le_foldl_max r.1 (List.mem_map_of_mem (·.1) hp')
  have hbY : ∀ p ∈ r :: rs, p.2.1 ≤ MY := by
    intro p hp
    rcases List.mem_cons.mp hp with rfl | hp'
    · exact le_foldl_max _ _
    · exact mem_le_foldl_max r.2.1 (List.mem_map_of_mem (·.2.1) hp')
  have hLX : (((MX + 1).toNat : Nat) : Int) = MX + 1 := Int.toNat_of_nonneg (by linarith)
  have hLY : (((MY + 1).toNat : Nat) : Int) = MY + 1 := Int.toNat_of_nonneg (by linarith)
  rw [if_neg (by push_neg; constructor <;> linarith)]
  obtain ⟨g, hfold, hlen, hrowlen, hcells⟩ :=
    foldlM_rasterize (MY + 1).toNat (MX + 1).toNat (r :: rs)
      (List.replicate (MY + 1).toNat (List.replicate (MX + 1).toNat none))
      (List.length_replicate _ _)
      (fun row hrow => by
        rw [List.eq_of_mem_replicate hrow]; exact List.length_replicate _ _)
      (fun p hp => ⟨(hnn p hp).1, by rw [hLX]; linarith [hbX p hp],
        (hnn p hp).2, by rw [hLY]; linarith [hbY p hp]⟩)
  rw [hfold]
  refine ⟨g, rfl, hlen, hrowlen, ?_⟩
  intro y x hy hx
  rw [hcells y x hy hx, cellAt_replicate y x hy, Option.or_none]

theorem rasterization_correct_witness :
    ([((0:Int), (0:Int), (1:ℚ)), (0, 1, 2), (0, 0, 3)] ≠
        ([] : List (Int × Int × ℚ))) ∧
      (∀ p ∈ [((0:Int), (0:Int), (1:ℚ)), (0, 1, 2), (0, 0, 3)], 0 ≤ p.1 ∧ 0 ≤ p.2.1) ∧
      ∃ g, rasterize [((0:Int), (0:Int), (1:ℚ)), (0, 1, 2), (0, 0, 3)] =
          .ok (g, (maxX [((0:Int), (0:Int), (1:ℚ)), (0, 1, 2), (0, 0, 3)] + 1).toNat,
            (maxY [((0:Int), (0:Int), (1:ℚ)), (0, 1, 2), (0, 0, 3)] + 1).toNat) ∧
        g.length = (maxY [((0:Int), (0:Int), (1:ℚ)), (0, 1, 2), (0, 0, 3)] + 1).toNat ∧
        (∀ row ∈ g,
          row.length = (maxX [((0:Int), (0:Int), (1:ℚ)), (0, 1, 2), (0, 0, 3)] + 1).toNat) ∧
        ∀ y x, y < (maxY [((0:Int), (0:Int), (1:ℚ)), (0, 1, 2), (0, 0, 3)] + 1).toNat →
          x < (maxX [((0:Int), (0:Int), (1:ℚ)), (0, 1, 2), (0, 0, 3)] + 1).toNat →
          cellAt g y x = lastVal [((0:Int), (0:Int), (1:ℚ)), (0, 1, 2), (0, 0, 3)] x y :=
  ⟨by decide, by decide,
    rasterization_correct [((0:Int), (0:Int), (1:ℚ)), (0, 1, 2), (0, 0, 3)]
      (by decide) (by decide)⟩

end BdgViz
